import Mathlib

/-!
Verification of the dockit log viewer / streaming log parser.

Shallow embedding of the log-decoding and log-viewing core of the
repository:

* `ui/logs.go` — `fetchLogs` (the Docker multiplexed-frame parser with its
  newline fallback and 500-line truncation), `filterLogs`, `highlightMatch`
  and the match count computed in `View`.
* `pretty` streaming TUI (`logsModel`) — the `Update` handler for incoming
  log lines and scroll keys, `formatLine`, `updateMatchCount`,
  `jumpToNextMatch`, `jumpToPrevMatch`.

Byte strings are modelled as `List Nat` (one entry per byte).  Go machine
integers in this code never overflow (lengths and indices are far below
2^63), and every Go int expression that could go negative is written in the
source guarded by `max(0, _)`, which coincides with truncated `Nat`
subtraction; scroll offsets and counts are therefore modelled as `Nat`.
The external regexp engine of the streaming TUI is modelled as an abstract
line predicate `List Nat → Bool`; lipgloss styling wraps text in ANSI
escapes without changing its content and is modelled by the `Span` markers
(for the substring highlighter) or dropped (for the streaming TUI, whose
claims do not concern styling).
-/

namespace Dockit

/-- Byte strings: one `Nat` per byte. -/
abbrev Str := List Nat

/-- ASCII whitespace, as recognised by Go `strings.TrimSpace` on ASCII
bytes: space (32) and the control characters 9–13. -/
def isSpaceByte (c : Nat) : Bool := c == 32 || (9 ≤ c && c ≤ 13)

/-- Remove leading whitespace. -/
def trimLeft (s : Str) : Str := s.dropWhile isSpaceByte

/-- Remove trailing whitespace. -/
def trimRight (s : Str) : Str := (s.reverse.dropWhile isSpaceByte).reverse

/-- Go `strings.TrimSpace`: strip whitespace from both ends. -/
def trimSpace (s : Str) : Str := trimLeft (trimRight s)

/-- `fetchLogs` emits a parsed line only when it is non-empty after
trimming (`line = strings.TrimSpace(line); if line != "" { append }`). -/
def emitTrimmed (s : Str) : Option Str :=
  let t := trimSpace s
  if t = [] then none else some t

/-- Big-endian 32-bit length read in `fetchLogs`:
`int(data[i+4])<<24 | int(data[i+5])<<16 | int(data[i+6])<<8 | int(data[i+7])`. -/
def be32 (b0 b1 b2 b3 : Nat) : Nat :=
  b0 <<< 24 ||| b1 <<< 16 ||| b2 <<< 8 ||| b3

/-- The header-parsing loop of `fetchLogs` (ui/logs.go lines 205–234),
written on the unconsumed suffix of the data.  One step: if fewer than 8
bytes remain, stop (the fragment is dropped); otherwise read the 4-byte
big-endian length from header bytes 4–7, skip the 8-byte header, and
either slice exactly `size` payload bytes (emitting the trimmed payload if
non-empty) and continue, or — when the declared size overruns the data —
emit the whole remaining suffix after the header as one trimmed line and
stop.  The `fuel` argument only bounds the recursion; every step consumes
at least 8 bytes, so `data.length + 1` steps always suffice
(`parseLoop_congr` below shows the result is fuel-independent). -/
def parseLoop : Nat → Str → List Str
  | 0, _ => []
  | fuel + 1, data =>
    if data.length < 8 then []
    else
      if be32 (data.getD 4 0) (data.getD 5 0) (data.getD 6 0) (data.getD 7 0)
          ≤ (data.drop 8).length then
        (emitTrimmed ((data.drop 8).take
            (be32 (data.getD 4 0) (data.getD 5 0) (data.getD 6 0) (data.getD 7 0)))).toList
          ++ parseLoop fuel ((data.drop 8).drop
            (be32 (data.getD 4 0) (data.getD 5 0) (data.getD 6 0) (data.getD 7 0)))
      else
        (emitTrimmed (data.drop 8)).toList

/-- The complete header-based parse of one batch of log data. -/
def parseFrames (data : Str) : List Str := parseLoop (data.length + 1) data

/-- Go `bufio.ScanLines` drops one trailing carriage return from a token. -/
def dropCR (l : Str) : Str := if l.getLast? = some 13 then l.dropLast else l

/-- `bufio.MaxScanTokenSize`, the default token-size cap of a
`bufio.Scanner` (64 KiB): the scanner buffer grows at most to this size,
so a newline-delimited segment is tokenised only when it fits the buffer
together with its terminator — any segment of 65536 bytes or more makes
`Scan` fail with `ErrTooLong`. -/
def maxScanTokenSize : Nat := 65536

/-- The tokens produced by `bufio.Scanner` (over a `strings.Reader`) with
the default `ScanLines` split function and the default buffer: split at
every newline (byte 10); a final empty token (data ending in a newline,
or empty data) is not emitted; the first segment of `maxScanTokenSize`
bytes or more stops the scan with `ErrTooLong`, so it and every later
segment yield no token (the cutoff commutes with dropping the trailing
empty token, since an empty segment always passes it); each emitted
token has a trailing carriage return removed. -/
def scanLinesTokens (data : Str) : List Str :=
  let parts := data.splitOn 10
  ((if parts.getLast? = some [] then parts.dropLast else parts).takeWhile
      fun p => p.length < maxScanTokenSize).map dropCR

/-- The fallback of `fetchLogs` (ui/logs.go lines 236–245): scan the raw
bytes line by line, keeping each line that is non-empty after trimming.
The loop stops as soon as `scanner.Scan()` returns false — including the
`ErrTooLong` over-long-segment case — and `scanner.Err()` is never
checked, so an over-long segment silently ends the output. -/
def scanFallback (data : Str) : List Str :=
  (scanLinesTokens data).filterMap emitTrimmed

/-- The frame demultiplexer of `fetchLogs`: header-based parse, falling
back to newline splitting of the same raw bytes when the parse produced
zero records. -/
def demuxLogs (data : Str) : List Str :=
  let logs := parseFrames data
  if logs = [] then scanFallback data else logs

/-- The final truncation in `fetchLogs`:
`if len(logs) > 500 { logs = logs[len(logs)-500:] }`. -/
def truncateTo500 (logs : List Str) : List Str :=
  if 500 < logs.length then logs.drop (logs.length - 500) else logs

/-- The placeholder `fetchLogs` substitutes for an empty result. -/
def noLogsMsg : Str := [78, 111, 32, 108, 111, 103, 115, 32, 97, 118, 97, 105, 108, 97, 98, 108, 101]

/-- The whole of `fetchLogs` after the bytes have been read: empty input
gives the placeholder; otherwise demultiplex, substitute the placeholder
for an empty result, and truncate to the last 500 lines. -/
def fetchLogsResult (data : Str) : List Str :=
  if data.length = 0 then [noLogsMsg]
  else
    let logs := demuxLogs data
    let logs := if logs = [] then [noLogsMsg] else logs
    truncateTo500 logs

/-- One well-formed wire frame: 1 tag byte, 3 reserved bytes, 4 length
bytes, and the payload. -/
structure Frame where
  tag : Nat
  r1 : Nat
  r2 : Nat
  r3 : Nat
  l3 : Nat
  l2 : Nat
  l1 : Nat
  l0 : Nat
  payload : Str
deriving DecidableEq

/-- Well-formedness of a frame: the 4-byte big-endian length field equals
the payload length. -/
def Frame.wf (f : Frame) : Prop := be32 f.l3 f.l2 f.l1 f.l0 = f.payload.length

instance (f : Frame) : Decidable f.wf := by unfold Frame.wf; infer_instance

/-- Serialise a frame: 8-byte header followed by the payload. -/
def Frame.encode (f : Frame) : Str :=
  f.tag :: f.r1 :: f.r2 :: f.r3 :: f.l3 :: f.l2 :: f.l1 :: f.l0 :: f.payload

/-- Serialise a sequence of frames. -/
def encodeFrames (fs : List Frame) : Str := (fs.map Frame.encode).flatten

/-- The records the spec expects from a well-formed frame sequence: one
trimmed payload per frame whose payload is non-empty after trimming, in
input order. -/
def frameRecords (fs : List Frame) : List Str := fs.filterMap fun f => emitTrimmed f.payload

/-- The fallback described by the spec, in the words of §4.1: newline
splitting of the raw bytes, trimming and emitting each non-empty line.
Kept separate from `scanFallback` (which mirrors the source) so the two
can be compared. -/
def fallbackSpecRecords (data : Str) : List Str :=
  (data.splitOn 10).filterMap emitTrimmed

lemma parseLoop_congr :
    ∀ (f₁ f₂ : Nat) (data : Str), data.length < f₁ → data.length < f₂ →
      parseLoop f₁ data = parseLoop f₂ data := by
  intro f₁
  induction f₁ with
  | zero => intro f₂ data h _; omega
  | succ g ih =>
    intro f₂ data h₁ h₂
    match f₂, h₂ with
    | g₂ + 1, h₂ =>
      show parseLoop (g + 1) data = parseLoop (g₂ + 1) data
      rw [parseLoop, parseLoop]
      by_cases hlen : data.length < 8
      · rw [if_pos hlen, if_pos hlen]
      · rw [if_neg hlen, if_neg hlen]
        set sz := be32 (data.getD 4 0) (data.getD 5 0) (data.getD 6 0) (data.getD 7 0)
          with hszdef
        by_cases hsz : sz ≤ (data.drop 8).length
        · rw [if_pos hsz, if_pos hsz]
          have hlt1 : ((data.drop 8).drop sz).length < g := by
            simp only [List.length_drop]; omega
          have hlt2 : ((data.drop 8).drop sz).length < g₂ := by
            simp only [List.length_drop]; omega
          rw [ih g₂ ((data.drop 8).drop sz) hlt1 hlt2]
        · rw [if_neg hsz, if_neg hsz]

lemma parseFrames_nil : parseFrames [] = [] := rfl

lemma parseFrames_encode_append (f : Frame) (hwf : f.wf) (suffix : Str) :
    parseFrames (f.encode ++ suffix) = (emitTrimmed f.payload).toList ++ parseFrames suffix := by
  have hlen : (f.encode ++ suffix).length = 8 + f.payload.length + suffix.length := by
    simp [Frame.encode]; omega
  have hfuel : parseFrames (f.encode ++ suffix)
      = parseLoop ((8 + f.payload.length + suffix.length) + 1) (f.encode ++ suffix) := by
    unfold parseFrames
    exact parseLoop_congr _ _ _ (by omega) (by omega)
  rw [hfuel, parseLoop]
  have hnotlt : ¬ (f.encode ++ suffix).length < 8 := by omega
  rw [if_neg hnotlt]
  have hget4 : (f.encode ++ suffix).getD 4 0 = f.l3 := by simp [Frame.encode]
  have hget5 : (f.encode ++ suffix).getD 5 0 = f.l2 := by simp [Frame.encode]
  have hget6 : (f.encode ++ suffix).getD 6 0 = f.l1 := by simp [Frame.encode]
  have hget7 : (f.encode ++ suffix).getD 7 0 = f.l0 := by simp [Frame.encode]
  have hdrop8 : (f.encode ++ suffix).drop 8 = f.payload ++ suffix := by
    simp [Frame.encode]
  rw [hget4, hget5, hget6, hget7, hdrop8]
  have hsizeval : be32 f.l3 f.l2 f.l1 f.l0 = f.payload.length := hwf
  rw [hsizeval]
  have hle : f.payload.length ≤ (f.payload ++ suffix).length := by simp
  rw [if_pos hle, List.take_left, List.drop_left]
  have hcg : parseLoop (8 + f.payload.length + suffix.length) suffix
      = parseLoop (suffix.length + 1) suffix :=
    parseLoop_congr _ _ _ (by omega) (by omega)
  rw [hcg]
  rfl

lemma parseFrames_encodeFrames_append (fs : List Frame) (hwf : ∀ f ∈ fs, f.wf) (suffix : Str) :
    parseFrames (encodeFrames fs ++ suffix) = frameRecords fs ++ parseFrames suffix := by
  induction fs with
  | nil => simp [encodeFrames, frameRecords]
  | cons f fs ih =>
    have hassoc : encodeFrames (f :: fs) ++ suffix = f.encode ++ (encodeFrames fs ++ suffix) := by
      simp [encodeFrames]
    rw [hassoc, parseFrames_encode_append f (hwf f (by simp)) _,
      ih (fun g hg => hwf g (by simp [hg]))]
    simp [frameRecords, List.filterMap_cons]
    cases emitTrimmed f.payload <;> simp

lemma parseFrames_encodeFrames (fs : List Frame) (hwf : ∀ f ∈ fs, f.wf) :
    parseFrames (encodeFrames fs) = frameRecords fs := by
  have := parseFrames_encodeFrames_append fs hwf []
  simpa [parseFrames_nil] using this

lemma trimRight_concat_space (l : Str) (c : Nat) (hc : isSpaceByte c = true) :
    trimRight (l ++ [c]) = trimRight l := by
  unfold trimRight
  rw [List.reverse_append]
  simp [List.dropWhile_cons, hc]

lemma trimSpace_dropCR (l : Str) : trimSpace (dropCR l) = trimSpace l := by
  unfold dropCR
  split
  next h =>
    have hne : l ≠ [] := by intro he; rw [he] at h; simp at h
    have hlast : l.getLast hne = 13 := by
      have hg := List.getLast?_eq_getLast l hne
      rw [hg] at h
      exact Option.some.inj h
    conv_rhs => rw [← List.dropLast_append_getLast hne, hlast]
    unfold trimSpace
    rw [trimRight_concat_space _ _ (by decide)]
  next => rfl

lemma emitTrimmed_dropCR (l : Str) : emitTrimmed (dropCR l) = emitTrimmed l := by
  unfold emitTrimmed
  rw [trimSpace_dropCR]

lemma takeWhile_all {α : Type} (p : α → Bool) :
    ∀ l : List α, (∀ x ∈ l, p x = true) → List.takeWhile p l = l := by
  intro l h
  induction l with
  | nil => rfl
  | cons a t ih =>
    rw [List.takeWhile_cons, if_pos (h a (by simp))]
    rw [ih fun x hx => h x (by simp [hx])]

/-- On batches in which every newline-delimited segment is below the
64 KiB scanner limit, the source fallback (a `bufio.Scanner` with
`ScanLines`, trim, keep non-empty) computes exactly the records the spec
describes: newline splitting, trimming, one record per non-empty
segment, in order.  The remaining scanner details (dropped trailing
empty token, per-token carriage-return stripping) are absorbed by the
trimming and the non-emptiness filter. -/
lemma scanFallback_eq_spec_of_short (data : Str)
    (hshort : ∀ p ∈ data.splitOn 10, p.length < maxScanTokenSize) :
    scanFallback data = fallbackSpecRecords data := by
  simp only [scanFallback, scanLinesTokens, fallbackSpecRecords]
  have hcomp : (emitTrimmed ∘ dropCR) = emitTrimmed := funext emitTrimmed_dropCR
  split
  next h =>
    have hne : data.splitOn 10 ≠ [] := by
      intro he; rw [he] at h; simp at h
    have hlast : (data.splitOn 10).getLast hne = [] := by
      have hg := List.getLast?_eq_getLast (data.splitOn 10) hne
      rw [hg] at h
      exact Option.some.inj h
    rw [takeWhile_all _ ((data.splitOn 10).dropLast)
      (fun x hx => by simpa using hshort x (List.dropLast_subset _ hx))]
    rw [List.filterMap_map, hcomp]
    conv_rhs => rw [← List.dropLast_append_getLast hne, hlast]
    rw [List.filterMap_append]
    have h0 : List.filterMap emitTrimmed [([] : Str)] = [] := rfl
    rw [h0, List.append_nil]
  next =>
    rw [takeWhile_all _ (data.splitOn 10) (fun x hx => by simpa using hshort x hx)]
    rw [List.filterMap_map, hcomp]

/-- C4 (amended): whenever the header-based parse of a batch yields zero
records AND every newline-delimited segment of the batch is shorter than
the scanner's 64 KiB token limit, the demultiplexer output equals the
spec fallback: one record per segment that is non-empty after trimming,
in order, and no error surfaces.  (A segment of 65536 bytes or more
silently ends the scan — `scanner.Err()` is never checked — dropping
that segment and every later one, per the counterexample; even then no
error reaches the user, only records are missing.) -/
theorem c4_fallback_newline_split (data : Str) (hparse : parseFrames data = [])
    (hshort : ∀ p ∈ data.splitOn 10, p.length < maxScanTokenSize) :
    demuxLogs data = fallbackSpecRecords data := by
  unfold demuxLogs
  rw [hparse, if_pos rfl, scanFallback_eq_spec_of_short data hshort]

/-- Witness for the amended C4: four garbage bytes (shorter than one
header), with an embedded newline, produce zero parsed frames, have only
short segments, and yield two fallback records. -/
theorem c4_fallback_newline_split_witness :
    (parseFrames [97, 10, 98, 98] = []
        ∧ ∀ p ∈ ([97, 10, 98, 98] : Str).splitOn 10, p.length < maxScanTokenSize)
      ∧ demuxLogs [97, 10, 98, 98] = [[97], [98, 98]] :=
  ⟨⟨by decide, by decide⟩,
    by rw [c4_fallback_newline_split _ (by decide) (by decide)]; decide⟩

lemma dropWhile_space_replicate (n : Nat) :
    List.dropWhile isSpaceByte (List.replicate n 32) = [] := by
  induction n with
  | zero => rfl
  | succ m ih =>
    rw [List.replicate_succ, List.dropWhile_cons, if_pos (by decide : isSpaceByte 32 = true)]
    exact ih

lemma trimSpace_replicate_space (n : Nat) :
    trimSpace (List.replicate n 32) = [] := by
  unfold trimSpace trimRight
  rw [List.reverse_replicate, dropWhile_space_replicate]
  rfl

lemma trimRight_append_replicate_space (l : Str) (n : Nat) :
    trimRight (l ++ List.replicate n 32) = trimRight l := by
  induction n with
  | zero => rw [List.replicate_zero, List.append_nil]
  | succ m ih =>
    rw [List.replicate_succ', ← List.append_assoc,
      trimRight_concat_space _ _ (by decide), ih]

/-- The well-formed frame of the C4 counterexample: a header whose tag
and reserved bytes happen to be spaces, declaring a 65600-byte all-space
payload (be32 0 1 0 64 = 65600). -/
def cLongFrame : Frame := ⟨32, 32, 32, 32, 0, 1, 0, 64, List.replicate 65600 32⟩

/-- The counterexample batch: 65608 bytes containing no newline — a
single newline-delimited segment well over the 64 KiB scanner limit,
which trims to the non-empty [0, 1, 0, 64]. -/
def cTooLongData : Str := 32 :: 32 :: 32 :: 32 :: 0 :: 1 :: 0 :: 64 :: List.replicate 65600 32

lemma cLongFrame_wf : cLongFrame.wf := by
  unfold Frame.wf cLongFrame
  rw [List.length_replicate]
  decide

lemma cTooLongData_encode : encodeFrames [cLongFrame] = cTooLongData := by
  simp only [encodeFrames, List.map_cons, List.map_nil, List.flatten_cons, List.flatten_nil,
    List.append_nil]
  rfl

lemma cTooLongData_parse : parseFrames cTooLongData = [] := by
  rw [← cTooLongData_encode, parseFrames_encodeFrames [cLongFrame]
    (by intro f hf; simp at hf; subst hf; exact cLongFrame_wf)]
  have he : emitTrimmed cLongFrame.payload = none := by
    show emitTrimmed (List.replicate 65600 32) = none
    unfold emitTrimmed
    rw [trimSpace_replicate_space]
    rfl
  show List.filterMap (fun f => emitTrimmed f.payload) [cLongFrame] = []
  simp only [List.filterMap_cons, List.filterMap_nil, he]

lemma cTooLongData_split : cTooLongData.splitOn 10 = [cTooLongData] := by
  unfold List.splitOn
  apply List.splitOnP_eq_single
  intro x hx
  simp only [cTooLongData, List.mem_cons, List.mem_replicate] at hx
  rcases hx with rfl | rfl | rfl | rfl | rfl | rfl | rfl | rfl | ⟨-, rfl⟩ <;> decide

lemma cTooLongData_length : cTooLongData.length = 65608 := by
  have hform : cTooLongData
      = ([32, 32, 32, 32, 0, 1, 0, 64] : Str) ++ List.replicate 65600 32 := rfl
  rw [hform, List.length_append, List.length_replicate]
  rfl

lemma cTooLongData_scan : scanFallback cTooLongData = [] := by
  simp only [scanFallback, scanLinesTokens]
  rw [cTooLongData_split]
  have hne : ¬ (([cTooLongData] : List Str).getLast? = some []) := by
    intro hc
    have hnil : cTooLongData = [] := Option.some.inj hc
    have hlen := cTooLongData_length
    rw [hnil] at hlen
    exact absurd hlen (by decide)
  rw [if_neg hne]
  have hlong : ¬ (cTooLongData.length < maxScanTokenSize) := by
    rw [cTooLongData_length]; decide
  rw [List.takeWhile_cons, if_neg (by simpa using hlong)]
  rfl

lemma cTooLongData_trim : trimSpace cTooLongData = [0, 1, 0, 64] := by
  have hform : cTooLongData
      = ([32, 32, 32, 32, 0, 1, 0, 64] : Str) ++ List.replicate 65600 32 := rfl
  rw [hform]
  unfold trimSpace
  rw [trimRight_append_replicate_space]
  decide

/-- Counterexample to C4 as stated: a batch whose single
newline-delimited segment is 65608 bytes long (over the scanner's
64 KiB token limit) and trims to the non-empty [0, 1, 0, 64].  The
header parse yields zero records, so the claim demands exactly one
fallback record for the segment — but the real fallback's scanner fails
with `ErrTooLong` (never surfaced, `scanner.Err()` is unchecked) and the
demultiplexer emits zero records, silently dropping the segment. -/
theorem c4_counterexample :
    parseFrames cTooLongData = []
      ∧ demuxLogs cTooLongData = []
      ∧ fallbackSpecRecords cTooLongData = [[0, 1, 0, 64]] := by
  refine ⟨cTooLongData_parse, ?_, ?_⟩
  · simp only [demuxLogs]
    rw [cTooLongData_parse, if_pos rfl, cTooLongData_scan]
  · unfold fallbackSpecRecords
    rw [cTooLongData_split]
    simp [List.filterMap_cons, emitTrimmed, cTooLongData_trim]

/-- A single well-formed frame whose 1-byte payload is a space: its
payload trims to empty. -/
def cEmptyFrame : Frame := ⟨1, 0, 0, 0, 0, 0, 0, 1, [32]⟩

/-- Counterexample to C1 as stated: for this well-formed frame stream the
claim demands that no record is emitted (the only payload trims to the
empty string), but the demultiplexer emits one record — the header parse
produces zero records, so the newline fallback reprocesses the raw bytes
and emits a line built from the header bytes. -/
theorem c1_counterexample :
    cEmptyFrame.wf ∧ trimSpace cEmptyFrame.payload = []
      ∧ demuxLogs (encodeFrames [cEmptyFrame]) = [[1, 0, 0, 0, 0, 0, 0, 1]] := by decide

/-- C1 (amended): for every well-formed frame stream in which at least
one payload is non-empty after trimming, the demultiplexer emits exactly
one record per frame whose payload trims non-empty, in input order, with
text equal to the trimmed payload; trim-empty frames emit nothing. -/
theorem c1_amended_frames_demux (fs : List Frame) (hwf : ∀ f ∈ fs, f.wf)
    (hne : frameRecords fs ≠ []) :
    demuxLogs (encodeFrames fs) = frameRecords fs := by
  unfold demuxLogs
  rw [parseFrames_encodeFrames fs hwf, if_neg hne]

/-- Three concrete frames: payload " hi  " (trims to "hi"), payload "\t"
(trims to empty, emits nothing), payload "ok". -/
def cFrames : List Frame :=
  [⟨1, 0, 0, 0, 0, 0, 0, 5, [32, 104, 105, 32, 32]⟩,
   ⟨2, 0, 0, 0, 0, 0, 0, 1, [9]⟩,
   ⟨1, 0, 0, 0, 0, 0, 0, 2, [111, 107]⟩]

/-- Witness for the amended C1 at a concrete three-frame stream. -/
theorem c1_amended_frames_demux_witness :
    (∀ f ∈ cFrames, f.wf) ∧ frameRecords cFrames ≠ []
      ∧ demuxLogs (encodeFrames cFrames) = [[104, 105], [111, 107]] :=
  ⟨by decide, by decide,
    by rw [c1_amended_frames_demux cFrames (by decide) (by decide)]; decide⟩

/-- Counterexample to C5 as stated: a complete frame with payload "hi"
followed by the trailing fragment "abc" (3 bytes, shorter than one
header).  One earlier frame decoded successfully, yet the fragment is
silently dropped — it appears in no emitted record, instead of being
emitted as a final best-effort record as the claim demands. -/
theorem c5_counterexample :
    demuxLogs [1, 0, 0, 0, 0, 0, 0, 2, 104, 105, 97, 98, 99] = [[104, 105]]
      ∧ [97, 98, 99] ∉ demuxLogs [1, 0, 0, 0, 0, 0, 0, 2, 104, 105, 97, 98, 99] := by decide

/-- C5 (amended): at end-of-stream, a trailing remainder that still has a
complete 8-byte header whose declared payload length exceeds the bytes
that follow is emitted as a final best-effort record (header stripped,
trimmed, and only if non-empty after trimming); this covers every
undecodable remainder of at least 8 bytes.  (A shorter fragment — under 8
bytes — is silently dropped when an earlier frame decoded, per the
counterexample.) -/
theorem c5_amended_trailing_remainder (fs : List Frame)
    (t r1 r2 r3 l3 l2 l1 l0 : Nat) (rem : Str)
    (hwf : ∀ f ∈ fs, f.wf) (hne : frameRecords fs ≠ [])
    (hsz : rem.length < be32 l3 l2 l1 l0) :
    demuxLogs (encodeFrames fs ++ t :: r1 :: r2 :: r3 :: l3 :: l2 :: l1 :: l0 :: rem)
      = frameRecords fs ++ (emitTrimmed rem).toList := by
  have hsuffix : parseFrames (t :: r1 :: r2 :: r3 :: l3 :: l2 :: l1 :: l0 :: rem)
      = (emitTrimmed rem).toList := by
    unfold parseFrames
    rw [parseLoop]
    have hlen : (t :: r1 :: r2 :: r3 :: l3 :: l2 :: l1 :: l0 :: rem).length
        = 8 + rem.length := by simp; omega
    rw [if_neg (by omega)]
    have hget4 : (t :: r1 :: r2 :: r3 :: l3 :: l2 :: l1 :: l0 :: rem).getD 4 0 = l3 := rfl
    have hget5 : (t :: r1 :: r2 :: r3 :: l3 :: l2 :: l1 :: l0 :: rem).getD 5 0 = l2 := rfl
    have hget6 : (t :: r1 :: r2 :: r3 :: l3 :: l2 :: l1 :: l0 :: rem).getD 6 0 = l1 := rfl
    have hget7 : (t :: r1 :: r2 :: r3 :: l3 :: l2 :: l1 :: l0 :: rem).getD 7 0 = l0 := rfl
    have hdrop : (t :: r1 :: r2 :: r3 :: l3 :: l2 :: l1 :: l0 :: rem).drop 8 = rem := rfl
    rw [hget4, hget5, hget6, hget7, hdrop]
    rw [if_neg (by omega)]
  unfold demuxLogs
  rw [parseFrames_encodeFrames_append fs hwf _, hsuffix]
  have hres : frameRecords fs ++ (emitTrimmed rem).toList ≠ [] := by
    intro hnil
    exact hne (List.append_eq_nil.mp hnil).1
  rw [if_neg hres]

/-- A single complete frame carrying "ok". -/
def cFrames5 : List Frame := [⟨1, 0, 0, 0, 0, 0, 0, 2, [111, 107]⟩]

/-- Witness for the amended C5: after the "ok" frame, a header declaring
5 payload bytes is followed by only 2 bytes "hi"; the partial payload is
emitted as a final record. -/
theorem c5_amended_trailing_remainder_witness :
    (∀ f ∈ cFrames5, f.wf) ∧ frameRecords cFrames5 ≠ []
      ∧ ([104, 105] : Str).length < be32 0 0 0 5
      ∧ demuxLogs (encodeFrames cFrames5 ++ 1 :: 0 :: 0 :: 0 :: 0 :: 0 :: 0 :: 5 :: [104, 105])
          = [[111, 107], [104, 105]] :=
  ⟨by decide, by decide, by decide,
    by
      rw [c5_amended_trailing_remainder cFrames5 1 0 0 0 0 0 0 5 [104, 105]
        (by decide) (by decide) (by decide)]
      decide⟩

/-- ASCII bytes of a string literal (all strings involved are ASCII, so
each character is one byte). -/
def bytesOf (s : String) : Str := s.toList.map Char.toNat

/-- Go `strings.ToLower` on one ASCII byte. -/
def toLowerByte (c : Nat) : Nat := if 65 ≤ c ∧ c ≤ 90 then c + 32 else c

/-- Go `strings.ToLower` on an ASCII byte string. -/
def toLowerStr (s : Str) : Str := s.map toLowerByte

/-- Go `strings.Contains hay needle`: some position of `hay` (including
its end, for the empty needle) starts an occurrence of `needle`. -/
def containsSub (hay needle : Str) : Bool :=
  (List.range (hay.length + 1)).any fun i => needle.isPrefixOf (hay.drop i)

/-- Go `strings.Index hay needle`: the first position of `hay` starting
an occurrence of `needle` (`none` models the -1 result). -/
def strIndex (hay needle : Str) : Option Nat :=
  (List.range (hay.length + 1)).find? fun i => needle.isPrefixOf (hay.drop i)

/-- One piece of a rendered line: plain text, or text wrapped in the
highlight style (`matchStyle.Render` emits ANSI codes around the matched
substring without changing its content; the wrapper is modelled as the
`hl` marker). -/
inductive Span where
  | plain (s : Str)
  | hl (s : Str)
deriving DecidableEq

/-- Go slice `l[a:b]`. -/
def slice (l : Str) (a b : Nat) : Str := (l.drop a).take (b - a)

/-- The occurrence loop of `highlightMatch` (ui/logs.go lines 300–321):
repeatedly find the lowered term in the lowered line from `lastIndex`,
emit the plain gap and the highlighted slice of the original-case line,
and continue past the match.  `fuel` only bounds the recursion: each
iteration advances `lastIndex` by at least `termLen ≥ 1` (the caller
guarantees a non-empty term), so `line.length + 1` iterations always
suffice before `strIndex` returns `none`. -/
def hlLoop : Nat → Str → Str → Str → Nat → Nat → List Span
  | 0, line, _, _, _, lastIndex => [Span.plain (line.drop lastIndex)]
  | fuel + 1, line, lineLower, termLower, termLen, lastIndex =>
    match strIndex (lineLower.drop lastIndex) termLower with
    | none => [Span.plain (line.drop lastIndex)]
    | some index =>
      Span.plain (slice line lastIndex (lastIndex + index))
        :: Span.hl (slice line (lastIndex + index) (lastIndex + index + termLen))
        :: hlLoop fuel line lineLower termLower termLen (lastIndex + index + termLen)

/-- `highlightMatch` (ui/logs.go): an empty term returns the line as is;
otherwise every occurrence of the lowered term in the lowered line is
wrapped in the highlight style, preserving the original-case text. -/
def highlightMatch (line term : Str) : List Span :=
  if term = [] then [Span.plain line]
  else hlLoop (line.length + 1) line (toLowerStr line) (toLowerStr term) term.length 0

/-- The selection loop of `filterLogs` (ui/logs.go lines 273–279): keep
each line whose lowered text contains the lowered search term, rendered
with highlighted matches, in order. -/
def filterSelect (logs : List Str) (term : Str) : List (List Span) :=
  match logs with
  | [] => []
  | line :: rest =>
    if containsSub (toLowerStr line) (toLowerStr term) then
      highlightMatch line term :: filterSelect rest term
    else
      filterSelect rest term

/-- The placeholder line `fmt.Sprintf("No matches found for '%s'", term)`
(byte 39 is the apostrophe of the Go format string). -/
def placeholderFor (term : Str) : Str :=
  bytesOf "No matches found for " ++ 39 :: (term ++ [39])

/-- `filterLogs` (ui/logs.go lines 262–288), producing the new
`filteredLogs`: the full buffer when the term is empty, otherwise the
highlighted matching lines, or the single placeholder line when nothing
matched. -/
def filterLogsFn (logs : List Str) (term : Str) : List (List Span) :=
  if term = [] then logs.map fun l => [Span.plain l]
  else
    if filterSelect logs term = [] then [[Span.plain (placeholderFor term)]]
    else filterSelect logs term

/-- The match count shown by `View` (ui/logs.go line 155):
`matchCount := len(m.filteredLogs)`. -/
def viewMatchCount (filtered : List (List Span)) : Nat := filtered.length

lemma toLowerByte_idem (c : Nat) : toLowerByte (toLowerByte c) = toLowerByte c := by
  unfold toLowerByte
  split_ifs <;> omega

lemma toLowerStr_idem (s : Str) : toLowerStr (toLowerStr s) = toLowerStr s := by
  unfold toLowerStr
  rw [List.map_map]
  exact List.map_congr_left fun c _ => toLowerByte_idem c

lemma toLowerStr_length (s : Str) : (toLowerStr s).length = s.length :=
  List.length_map s toLowerByte

lemma toLowerStr_eq_nil_iff (s : Str) : toLowerStr s = [] ↔ s = [] := by
  simp [toLowerStr]

lemma highlightMatch_toLower (line term : Str) :
    highlightMatch line (toLowerStr term) = highlightMatch line term := by
  unfold highlightMatch
  by_cases hterm : term = []
  · subst hterm; rfl
  · rw [if_neg ((not_congr (toLowerStr_eq_nil_iff term)).mpr hterm), if_neg hterm,
      toLowerStr_idem, toLowerStr_length]

lemma filterSelect_toLower (logs : List Str) (term : Str) :
    filterSelect logs (toLowerStr term) = filterSelect logs term := by
  induction logs with
  | nil => rfl
  | cons line rest ih =>
    show (if containsSub (toLowerStr line) (toLowerStr (toLowerStr term)) then
        highlightMatch line (toLowerStr term) :: filterSelect rest (toLowerStr term)
      else filterSelect rest (toLowerStr term)) = _
    rw [toLowerStr_idem, highlightMatch_toLower, ih]
    rfl

lemma filterSelect_eq_filter_map (logs : List Str) (term : Str) :
    filterSelect logs term
      = (logs.filter fun l => containsSub (toLowerStr l) (toLowerStr term)).map
          fun l => highlightMatch l term := by
  induction logs with
  | nil => rfl
  | cons line rest ih =>
    show (if containsSub (toLowerStr line) (toLowerStr term) then _ else _) = _
    rw [List.filter_cons]
    by_cases hc : containsSub (toLowerStr line) (toLowerStr term)
    · rw [if_pos hc, if_pos hc, List.map_cons, ih]
    · rw [if_neg hc, if_neg (by simpa using hc), ih]

/-- The four-line buffer of the spec example. -/
def cExampleLogs : List Str :=
  [bytesOf "INFO start", bytesOf "ERROR boom", bytesOf "error retry", bytesOf "done"]

/-- C6: search matching is case-insensitive — lowering the search term
(the matching already lowers both sides) changes neither the selected
lines nor their highlighting; the filtered view is exactly the matching
lines, each rendered by the highlighter; and on the spec example buffer
the pattern "ERROR" selects exactly "ERROR boom" and "error retry", each
with a highlight span at the matched substring, with a match count of 2. -/
theorem c6_case_insensitive_search :
    (∀ (logs : List Str) (term : Str),
        filterSelect logs term = filterSelect logs (toLowerStr term))
    ∧ (∀ (logs : List Str) (term : Str),
        filterSelect logs term
          = (logs.filter fun l => containsSub (toLowerStr l) (toLowerStr term)).map
              fun l => highlightMatch l term)
    ∧ filterLogsFn cExampleLogs (bytesOf "ERROR")
        = [[Span.plain [], Span.hl (bytesOf "ERROR"), Span.plain (bytesOf " boom")],
           [Span.plain [], Span.hl (bytesOf "error"), Span.plain (bytesOf " retry")]]
    ∧ viewMatchCount (filterLogsFn cExampleLogs (bytesOf "ERROR")) = 2 :=
  ⟨fun logs term => (filterSelect_toLower logs term).symm,
   filterSelect_eq_filter_map,
   by decide,
   by decide⟩

/-- Counterexample to C7 as stated: on the non-empty buffer ["hello"]
with the zero-match pattern "zzz" the view does render the placeholder,
but the match count the viewer shows — `len(filteredLogs)` — is 1 (the
placeholder line itself), not 0 as the claim demands. -/
theorem c7_counterexample :
    filterLogsFn [bytesOf "hello"] (bytesOf "zzz")
        = [[Span.plain (placeholderFor (bytesOf "zzz"))]]
      ∧ viewMatchCount (filterLogsFn [bytesOf "hello"] (bytesOf "zzz")) = 1
      ∧ ¬ viewMatchCount (filterLogsFn [bytesOf "hello"] (bytesOf "zzz")) = 0 := by decide

/-- C7 (amended): for every buffer and every non-empty pattern that
matches zero lines, the filtered view is exactly the single distinct
placeholder line "No matches found for <pattern>" (never an empty
screen), and the match count shown by the view — the length of the
filtered view — is therefore 1, not 0. -/
theorem c7_amended_no_match_placeholder (logs : List Str) (term : Str)
    (hterm : term ≠ []) (hzero : filterSelect logs term = []) :
    filterLogsFn logs term = [[Span.plain (placeholderFor term)]]
      ∧ viewMatchCount (filterLogsFn logs term) = 1 := by
  unfold filterLogsFn
  rw [if_neg hterm, if_pos hzero]
  exact ⟨rfl, rfl⟩

/-- Witness for the amended C7 on the buffer ["INFO"] with pattern "qqq". -/
theorem c7_amended_no_match_placeholder_witness :
    (bytesOf "qqq" ≠ [] ∧ filterSelect [bytesOf "INFO"] (bytesOf "qqq") = [])
      ∧ filterLogsFn [bytesOf "INFO"] (bytesOf "qqq")
          = [[Span.plain (placeholderFor (bytesOf "qqq"))]]
      ∧ viewMatchCount (filterLogsFn [bytesOf "INFO"] (bytesOf "qqq")) = 1 :=
  ⟨⟨by decide, by decide⟩,
   c7_amended_no_match_placeholder [bytesOf "INFO"] (bytesOf "qqq") (by decide) (by decide)⟩

/-- One decoded line of the streaming TUI (`logLine` in the pretty
package).  Only `raw` is ever read by the model logic; the source's
`formatted` and `timestamp` fields are never consulted and are omitted. -/
structure LogLine where
  raw : Str
deriving DecidableEq

/-- The state of the streaming TUI (`logsModel`), restricted to the
fields its decision logic reads.  The compiled search regex lives in the
external Go regexp engine; it is modelled as an abstract predicate on a
line's text (its `MatchString`). -/
structure LogsState where
  lines : List LogLine
  scrollOffset : Nat
  width : Nat
  height : Nat
  follow : Bool
  paused : Bool
  searchMode : Bool
  searchPattern : Option (Str → Bool)
  matchCount : Nat

/-- `contentHeight`: the title and status bar reserve 3 rows, plus one
for the search bar in search mode; always at least one content row. -/
def contentHeight (st : LogsState) : Nat :=
  max 1 (st.height - (3 + (if st.searchMode then 1 else 0)))

/-- The scroll bound `max(0, len(m.lines)-m.contentHeight())` (`Nat`
subtraction coincides with the `max(0, _)`-guarded Go int subtraction). -/
def maxScroll (st : LogsState) : Nat := st.lines.length - contentHeight st

/-- The header stripping applied by `formatLine`, `updateMatchCount`,
`jumpToNextMatch` and `jumpToPrevMatch`:
`if len(text) > 8 { text = text[8:] }` — applied unconditionally to every
line read from the stream, whether or not the stream used the
multiplexed frame format. -/
def stripHeader (text : Str) : Str := if 8 < text.length then text.drop 8 else text

/-- `updateMatchCount`: the number of lines whose stripped text matches
the active pattern; 0 when no pattern is set. -/
def updateMatchCountVal (st : LogsState) : Nat :=
  match st.searchPattern with
  | none => 0
  | some p => st.lines.countP fun l => p (stripHeader l.raw)

/-- The text content produced by `formatLine` for one line: strip the
transport header; with an active pattern, hide the line (`none`, the
source returns "") unless the stripped text matches, in which case the
matched spans are wrapped in the highlight style (ANSI styling only —
the text content is the stripped text itself). -/
def formatLineText (st : LogsState) (line : LogLine) : Option Str :=
  match st.searchPattern with
  | some p => if p (stripHeader line.raw) then some (stripHeader line.raw) else none
  | none => some (stripHeader line.raw)

/-- The `logMsg` branch of `logsModel.Update` (part_008 lines 170–185):
when paused the arriving line is discarded outright; otherwise it is
appended, the offset snaps to the bottom when following within 5 lines
of it, and the match count is recomputed. -/
def applyLogMsg (st : LogsState) (l : LogLine) : LogsState :=
  if st.paused then st
  else
    let st1 := { st with lines := st.lines ++ [l] }
    let st2 :=
      if st1.follow then
        if maxScroll st1 - 5 ≤ st1.scrollOffset then { st1 with scrollOffset := maxScroll st1 }
        else st1
      else st1
    { st2 with matchCount := updateMatchCountVal st2 }

/-- A sequence of arriving log messages fed through the update loop. -/
def feedLines (st : LogsState) (ls : List LogLine) : LogsState := ls.foldl applyLogMsg st

/-- Key "up"/"k". -/
def keyUp (st : LogsState) : LogsState :=
  if 0 < st.scrollOffset then { st with scrollOffset := st.scrollOffset - 1 } else st

/-- Key "down"/"j". -/
def keyDown (st : LogsState) : LogsState :=
  if st.scrollOffset < maxScroll st then { st with scrollOffset := st.scrollOffset + 1 } else st

/-- Key "pgup": `max(0, scrollOffset - contentHeight)`. -/
def keyPgUp (st : LogsState) : LogsState :=
  { st with scrollOffset := st.scrollOffset - contentHeight st }

/-- Key "pgdown": `min(scrollOffset + contentHeight, maxScroll)`. -/
def keyPgDown (st : LogsState) : LogsState :=
  { st with scrollOffset := min (st.scrollOffset + contentHeight st) (maxScroll st) }

/-- Key "home"/"g". -/
def keyHome (st : LogsState) : LogsState := { st with scrollOffset := 0 }

/-- Key "end"/"G". -/
def keyEnd (st : LogsState) : LogsState := { st with scrollOffset := maxScroll st }

/-- Whether line `i` matches pattern `p` on its header-stripped text, as
in all four navigation/count sites.  The Go code indexes `m.lines[i]`
directly; an out-of-range index (which would panic in Go, and is
excluded by the theorems' bounds hypotheses) reads a default empty
line. -/
def matchesIdx (st : LogsState) (p : Str → Bool) (i : Nat) : Bool :=
  p (stripHeader ((st.lines.getD i ⟨[]⟩).raw))

/-- `jumpToNextMatch` (part_008 lines 383–410): a no-op without a
pattern or with a zero match count; otherwise scan indices
scrollOffset+1 … len-1 upwards and, failing that, wrap around to scan
0 … scrollOffset, moving the offset to the first matching index found. -/
def jumpToNextMatch (st : LogsState) : LogsState :=
  match st.searchPattern with
  | none => st
  | some p =>
    if st.matchCount = 0 then st
    else
      match (List.range' (st.scrollOffset + 1)
          (st.lines.length - (st.scrollOffset + 1))).find? (matchesIdx st p) with
      | some i => { st with scrollOffset := i }
      | none =>
        match (List.range (st.scrollOffset + 1)).find? (matchesIdx st p) with
        | some i => { st with scrollOffset := i }
        | none => st

/-- `jumpToPrevMatch` (part_008 lines 412–439): scan scrollOffset-1 … 0
downwards and, failing that, wrap around to scan len-1 … scrollOffset
downwards. -/
def jumpToPrevMatch (st : LogsState) : LogsState :=
  match st.searchPattern with
  | none => st
  | some p =>
    if st.matchCount = 0 then st
    else
      match (List.range st.scrollOffset).reverse.find? (matchesIdx st p) with
      | some i => { st with scrollOffset := i }
      | none =>
        match (List.range' st.scrollOffset
            (st.lines.length - st.scrollOffset)).reverse.find? (matchesIdx st p) with
        | some i => { st with scrollOffset := i }
        | none => st

/-- A concrete paused streaming state. -/
def cPausedState : LogsState :=
  { lines := [], scrollOffset := 0, width := 80, height := 24, follow := true,
    paused := true, searchMode := false, searchPattern := none, matchCount := 0 }

/-- Counterexample to C2 as stated: with `paused` set, an arriving line
is NOT appended to the buffer — the `logMsg` handler discards it, so the
buffer after resuming is missing the line that arrived during the
pause (the claim demands it be present). -/
theorem c2_counterexample :
    (applyLogMsg cPausedState ⟨[104, 105]⟩).lines = []
      ∧ (⟨[104, 105]⟩ : LogLine) ∉ (applyLogMsg cPausedState ⟨[104, 105]⟩).lines := by decide

lemma applyLogMsg_unpaused (st : LogsState) (l : LogLine) (h : st.paused = false) :
    (applyLogMsg st l).lines = st.lines ++ [l] ∧ (applyLogMsg st l).paused = false := by
  have hnp : ¬ (st.paused = true) := by simp [h]
  simp only [applyLogMsg, if_neg hnp]
  constructor
  · split <;> (try split) <;> rfl
  · split <;> (try split) <;> exact h

/-- C2 (amended): while paused, incoming stream lines are dropped — the
`logMsg` handler leaves the model completely unchanged, so lines that
arrive during a pause are absent from the buffer after resuming; a line
arriving while unpaused is appended at the end of the buffer. -/
theorem c2_amended_paused_drops_lines (st : LogsState) (l : LogLine) :
    applyLogMsg { st with paused := true } l = { st with paused := true }
      ∧ (applyLogMsg { st with paused := false } l).lines = st.lines ++ [l] := by
  constructor
  · simp [applyLogMsg]
  · exact (applyLogMsg_unpaused { st with paused := false } l rfl).1

lemma feedLines_lines (ls : List LogLine) (st : LogsState) (h : st.paused = false) :
    (feedLines st ls).lines = st.lines ++ ls ∧ (feedLines st ls).paused = false := by
  induction ls generalizing st with
  | nil => exact ⟨by simp [feedLines], h⟩
  | cons l ls ih =>
    have h1 := applyLogMsg_unpaused st l h
    have h2 := ih (applyLogMsg st l) h1.2
    refine ⟨?_, h2.2⟩
    show (feedLines (applyLogMsg st l) ls).lines = st.lines ++ l :: ls
    rw [h2.1, h1.1]
    simp

/-- A concrete unpaused, non-following base state with an empty buffer. -/
def cStreamBase : LogsState :=
  { lines := [], scrollOffset := 0, width := 80, height := 24, follow := false,
    paused := false, searchMode := false, searchPattern := none, matchCount := 0 }

/-- Counterexample to C3 as stated: the streaming viewer's line buffer
(the second code site the claim covers) has no capacity eviction at all —
after 501 arrivals it holds 501 lines, exceeding the claimed 500-line
cap that is supposed to hold "after any insertion". -/
theorem c3_counterexample :
    (feedLines cStreamBase (List.replicate 501 ⟨[97]⟩)).lines.length = 501
      ∧ ¬ (feedLines cStreamBase (List.replicate 501 ⟨[97]⟩)).lines.length ≤ 500 := by
  have h := feedLines_lines (List.replicate 501 ⟨[97]⟩) cStreamBase rfl
  have hbase : cStreamBase.lines = [] := rfl
  constructor
  · rw [h.1, hbase, List.nil_append, List.length_replicate]
  · rw [h.1, hbase, List.nil_append, List.length_replicate]
    omega

lemma truncateTo500_drop (logs : List Str) :
    truncateTo500 logs = logs.drop (logs.length - 500) := by
  unfold truncateTo500
  split
  next => rfl
  next h =>
    rw [show logs.length - 500 = 0 by omega, List.drop_zero]

/-- C3 (amended): the one-shot fetcher (`fetchLogs`) enforces the
500-line cap: its final truncation returns exactly the last 500 lines in
original relative order (all lines when there are at most 500), so its
result never exceeds 500 lines, and a 600-line parse keeps exactly the
last 500.  The streaming viewer's buffer, in contrast, is unbounded: n
arriving lines yield n buffered lines for every n. -/
theorem c3_amended_capacity :
    (∀ logs : List Str, truncateTo500 logs = logs.drop (logs.length - 500)
        ∧ (truncateTo500 logs).length ≤ 500)
    ∧ (truncateTo500 ((List.range 600).map fun n => [n])).length = 500
    ∧ truncateTo500 ((List.range 600).map fun n => [n])
        = ((List.range 600).map fun n => [n]).drop 100
    ∧ (∀ n : Nat, (feedLines cStreamBase (List.replicate n ⟨[97]⟩)).lines.length = n) := by
  have hgen : ∀ logs : List Str, truncateTo500 logs = logs.drop (logs.length - 500)
      ∧ (truncateTo500 logs).length ≤ 500 := by
    intro logs
    refine ⟨truncateTo500_drop logs, ?_⟩
    rw [truncateTo500_drop logs, List.length_drop]
    omega
  refine ⟨hgen, ?_, ?_, ?_⟩
  · rw [(hgen _).1]
    simp
  · rw [(hgen _).1]
    simp
  · intro n
    have h := feedLines_lines (List.replicate n ⟨[97]⟩) cStreamBase rfl
    have hbase : cStreamBase.lines = [] := rfl
    rw [h.1, hbase, List.nil_append, List.length_replicate]

/-- The scroll-offset invariant of the spec,
`0 ≤ scrollOffset ≤ max(0, activeLineCount - viewportHeight)` (the lower
bound is automatic for `Nat`; the streaming TUI's active line count is
always the full buffer). -/
def scrollInv (st : LogsState) : Prop := st.scrollOffset ≤ maxScroll st

/-- The concrete pattern of the C9 counterexample: the text contains
byte 109. -/
def cPat9 : Str → Bool := fun l => l.contains 109

/-- A reachable viewer state: 3 buffered lines, window height 5 (so two
content rows and valid scroll range 0..1), a pattern matching only the
last line, a consistent match count, offset at the top. -/
def cJumpState : LogsState :=
  { lines := [⟨[97]⟩, ⟨[98]⟩, ⟨[109, 109]⟩], scrollOffset := 0, width := 80, height := 5,
    follow := false, paused := false, searchMode := false,
    searchPattern := some cPat9, matchCount := 1 }

/-- Counterexample to C9 as stated: match navigation does not clamp.
From `cJumpState` (valid range 0..1) jumping to the next match sets
`scrollOffset` to 2 — the raw index of the matching line — violating
`scrollOffset ≤ max(0, activeLineCount - viewportHeight)`. -/
theorem c9_counterexample :
    (jumpToNextMatch cJumpState).scrollOffset = 2
      ∧ maxScroll (jumpToNextMatch cJumpState) = 1
      ∧ ¬ scrollInv (jumpToNextMatch cJumpState) := by
  refine ⟨by decide, by decide, ?_⟩
  unfold scrollInv
  decide

/-- C9 (amended): the invariant
`0 ≤ scrollOffset ≤ max(0, lineCount - viewportHeight)` is preserved by
the line-scroll, page-scroll and top/bottom keys and by new-line
arrival; match navigation (`jumpToNextMatch`/`jumpToPrevMatch`) does NOT
preserve it — it moves the offset to the raw index of a matching line,
which can exceed the bound (see the counterexample). -/
theorem c9_amended_scroll_invariant (st : LogsState) (l : LogLine) (h : scrollInv st) :
    scrollInv (keyUp st) ∧ scrollInv (keyDown st) ∧ scrollInv (keyPgUp st)
      ∧ scrollInv (keyPgDown st) ∧ scrollInv (keyHome st) ∧ scrollInv (keyEnd st)
      ∧ scrollInv (applyLogMsg st l) := by
  unfold scrollInv maxScroll contentHeight at h ⊢
  refine ⟨?_, ?_, ?_, ?_, ?_, ?_, ?_⟩
  · unfold keyUp
    split
    next => exact le_trans (Nat.sub_le _ _) h
    next => exact h
  · unfold keyDown
    split
    next hlt =>
      simp only [maxScroll, contentHeight] at hlt
      simp
      omega
    next => exact h
  · unfold keyPgUp
    simp
    try omega
  · unfold keyPgDown
    simp only [maxScroll, contentHeight]
    simp
    try omega
  · unfold keyHome
    simp
  · unfold keyEnd
    simp only [maxScroll, contentHeight]
    simp
  · have hlen : (st.lines ++ [l]).length = st.lines.length + 1 := by simp
    by_cases hp : st.paused = true
    · simp only [applyLogMsg, if_pos hp]
      exact h
    · have hnp : ¬ (st.paused = true) := hp
      simp only [applyLogMsg, if_neg hnp]
      split
      next =>
        split
        next => simp only [maxScroll, contentHeight]; simp
        next => simp only [maxScroll, contentHeight]; simp [hlen]; omega
      next => simp only [maxScroll, contentHeight]; simp [hlen]; omega

/-- A concrete in-range state for the C9 witness (offset 1 within the
valid range 0..1). -/
def cScrollState : LogsState :=
  { lines := [⟨[97]⟩, ⟨[98]⟩, ⟨[109, 109]⟩], scrollOffset := 1, width := 80, height := 5,
    follow := true, paused := false, searchMode := false,
    searchPattern := none, matchCount := 0 }

/-- Witness for the amended C9 at a concrete state and arriving line. -/
theorem c9_amended_scroll_invariant_witness :
    scrollInv cScrollState
      ∧ (scrollInv (keyUp cScrollState) ∧ scrollInv (keyDown cScrollState)
          ∧ scrollInv (keyPgUp cScrollState) ∧ scrollInv (keyPgDown cScrollState)
          ∧ scrollInv (keyHome cScrollState) ∧ scrollInv (keyEnd cScrollState)
          ∧ scrollInv (applyLogMsg cScrollState ⟨[120]⟩)) :=
  ⟨by unfold scrollInv; decide,
   c9_amended_scroll_invariant cScrollState ⟨[120]⟩ (by unfold scrollInv; decide)⟩

lemma countP_strip_eq_filterMap_length (lines : List LogLine) (p : Str → Bool) :
    (lines.countP fun l => p (stripHeader l.raw))
      = (lines.filterMap fun l =>
          if p (stripHeader l.raw) then some (stripHeader l.raw) else none).length := by
  induction lines with
  | nil => rfl
  | cons a rest ih =>
    rw [List.countP_cons, List.filterMap_cons]
    by_cases hpa : p (stripHeader a.raw) = true
    · rw [if_pos hpa, if_pos hpa, List.length_cons, ih]
    · rw [if_neg hpa, if_neg hpa, ih]
      simp

/-- The C10 demonstration pattern: the visible text starts with "error". -/
def cPat10 : Str → Bool := fun l => (bytesOf "error").isPrefixOf l

/-- An 11-byte plain (non-multiplexed) line "error: disk". -/
def cStripState1 : LogsState :=
  { lines := [⟨bytesOf "error: disk"⟩], scrollOffset := 0, width := 80, height := 24,
    follow := false, paused := false, searchMode := false,
    searchPattern := some cPat10, matchCount := 0 }

/-- A 5-byte plain line "error". -/
def cStripState2 : LogsState :=
  { lines := [⟨bytesOf "error"⟩], scrollOffset := 0, width := 80, height := 24,
    follow := false, paused := false, searchMode := false,
    searchPattern := some cPat10, matchCount := 0 }

/-- C10: the streaming TUI unconditionally removes the first 8 bytes of
every line longer than 8 bytes — the same stripped text feeds the
display (`formatLine`), the match count (`updateMatchCount`, which
equals the number of lines the display filter keeps), and, through
`matchesIdx`, match navigation — while lines of at most 8 bytes are
processed whole; this happens whether or not the stream used the
multiplexed format.  Concretely, the plain 11-byte line "error: disk"
does not count as a match for a pattern satisfied by its own prefix
(only "isk" survives stripping), while the 5-byte line "error" does. -/
theorem c10_unconditional_header_strip :
    (∀ t : Str, 8 < t.length → stripHeader t = t.drop 8)
    ∧ (∀ t : Str, t.length ≤ 8 → stripHeader t = t)
    ∧ (∀ (st : LogsState) (p : Str → Bool),
        updateMatchCountVal { st with searchPattern := some p }
          = (st.lines.filterMap (formatLineText { st with searchPattern := some p })).length)
    ∧ updateMatchCountVal cStripState1 = 0
    ∧ updateMatchCountVal cStripState2 = 1 := by
  refine ⟨?_, ?_, ?_, by decide, by decide⟩
  · intro t ht
    unfold stripHeader
    rw [if_pos ht]
  · intro t ht
    unfold stripHeader
    rw [if_neg (by omega)]
  · intro st p
    show ({ st with searchPattern := some p } : LogsState).lines.countP _ = _
    exact countP_strip_eq_filterMap_length st.lines p

/-- Witness for C10: the stripping characterisation applied to the
11-byte line "error: disk" and the 5-byte line "error". -/
theorem c10_unconditional_header_strip_witness :
    (8 < (bytesOf "error: disk").length
        ∧ stripHeader (bytesOf "error: disk") = (bytesOf "error: disk").drop 8)
      ∧ ((bytesOf "error").length ≤ 8 ∧ stripHeader (bytesOf "error") = bytesOf "error") :=
  ⟨⟨by decide, c10_unconditional_header_strip.1 _ (by decide)⟩,
   ⟨by decide, c10_unconditional_header_strip.2.1 _ (by decide)⟩⟩

lemma find?_range'_first (p : Nat → Bool) (F : Nat) (hF : p F = true)
    (hmin : ∀ j, p j = true → F ≤ j) :
    ∀ (n s : Nat), s ≤ F → F < s + n → (List.range' s n).find? p = some F := by
  intro n
  induction n with
  | zero => intro s _ hFn; omega
  | succ m ih =>
    intro s hs hFn
    rw [List.range'_succ]
    by_cases hsF : s = F
    · subst hsF
      rw [List.find?_cons_of_pos _ hF]
    · have hpf : ¬ p s = true := fun hps => hsF (Nat.le_antisymm hs (hmin s hps))
      rw [List.find?_cons_of_neg _ hpf]
      exact ih (s + 1) (by omega) (by omega)

lemma find?_rev_range'_last (p : Nat → Bool) (L : Nat) (hL : p L = true)
    (hmax : ∀ j, p j = true → j ≤ L) :
    ∀ (n s : Nat), s ≤ L → L < s + n → ((List.range' s n).reverse).find? p = some L := by
  intro n
  induction n with
  | zero => intro s _ hLn; omega
  | succ m ih =>
    intro s hs hLn
    rw [List.range'_1_concat, List.reverse_append, List.reverse_singleton,
      List.singleton_append]
    by_cases hsm : s + m = L
    · rw [List.find?_cons_of_pos _ (hsm ▸ hL), hsm]
    · have hpf : ¬ p (s + m) = true := fun hp => by
        have := hmax _ hp
        omega
      rw [List.find?_cons_of_neg _ hpf]
      exact ih s hs (by omega)

/-- C8: with an active pattern and a non-zero match count, next-match
and previous-match navigation wrap around the buffer ends — if `F` and
`L` are the first and last matching indices, jumping to the next match
from an offset at or after `L` lands on `F`, and jumping to the previous
match from an offset at or before `F` lands on `L`; without a pattern,
or with a zero match count, both operations leave the state unchanged. -/
theorem c8_match_navigation_wraps (st : LogsState) (p : Str → Bool) (F L : Nat)
    (hp : st.searchPattern = some p) (hc : st.matchCount ≠ 0)
    (hF : matchesIdx st p F = true) (hL : matchesIdx st p L = true)
    (hfirst : ∀ i, matchesIdx st p i = true → F ≤ i)
    (hlast : ∀ i, matchesIdx st p i = true → i ≤ L)
    (hLlen : L < st.lines.length) :
    (L ≤ st.scrollOffset → st.scrollOffset < st.lines.length →
        (jumpToNextMatch st).scrollOffset = F)
    ∧ (st.scrollOffset ≤ F → (jumpToPrevMatch st).scrollOffset = L)
    ∧ (∀ st' : LogsState, st'.searchPattern = none →
        jumpToNextMatch st' = st' ∧ jumpToPrevMatch st' = st')
    ∧ (∀ st' : LogsState, st'.matchCount = 0 →
        jumpToNextMatch st' = st' ∧ jumpToPrevMatch st' = st') := by
  refine ⟨?_, ?_, ?_, ?_⟩
  · intro hLso hsolen
    simp only [jumpToNextMatch, hp]
    rw [if_neg hc]
    have hfwd : (List.range' (st.scrollOffset + 1)
        (st.lines.length - (st.scrollOffset + 1))).find? (matchesIdx st p) = none := by
      apply List.find?_eq_none.mpr
      intro x hx hmatch
      have hxL := hlast x hmatch
      obtain ⟨i, hi, rfl⟩ := List.mem_range'.mp hx
      omega
    rw [hfwd]
    have hwrap : (List.range (st.scrollOffset + 1)).find? (matchesIdx st p) = some F := by
      rw [List.range_eq_range']
      exact find?_range'_first _ F hF hfirst (st.scrollOffset + 1) 0 (by omega)
        (by have := hfirst L hL; omega)
    rw [hwrap]
  · intro hsoF
    simp only [jumpToPrevMatch, hp]
    rw [if_neg hc]
    have hback : ((List.range st.scrollOffset).reverse).find? (matchesIdx st p) = none := by
      apply List.find?_eq_none.mpr
      intro x hx hmatch
      rw [List.mem_reverse] at hx
      have hxlt := List.mem_range.mp hx
      have := hfirst x hmatch
      omega
    rw [hback]
    have hFL := hlast F hF
    have hwrap : ((List.range' st.scrollOffset
        (st.lines.length - st.scrollOffset)).reverse).find? (matchesIdx st p) = some L := by
      exact find?_rev_range'_last _ L hL hlast _ st.scrollOffset (by omega) (by omega)
    rw [hwrap]
  · intro st' hnone
    constructor <;> simp [jumpToNextMatch, jumpToPrevMatch, hnone]
  · intro st' hzero
    cases hsp : st'.searchPattern with
    | none =>
      constructor <;> simp [jumpToNextMatch, jumpToPrevMatch, hsp]
    | some q =>
      constructor <;> simp [jumpToNextMatch, jumpToPrevMatch, hsp, hzero]

/-- The concrete pattern of the C8 witness: the line text is exactly the
byte 120. -/
def cPat8 : Str → Bool := fun l => l == [120]

/-- Three lines with a single match at index 1, offset sitting on it:
both jumps wrap around the whole buffer back to the same match. -/
def cNavState : LogsState :=
  { lines := [⟨[98]⟩, ⟨[120]⟩, ⟨[98]⟩], scrollOffset := 1, width := 80, height := 24,
    follow := false, paused := false, searchMode := false,
    searchPattern := some cPat8, matchCount := 1 }

lemma cNavState_match_bounds :
    ∀ i, matchesIdx cNavState cPat8 i = true → 1 ≤ i ∧ i ≤ 1 := by
  intro i hi
  match i with
  | 0 => exact absurd hi (by decide)
  | 1 => exact ⟨Nat.le_refl 1, Nat.le_refl 1⟩
  | 2 => exact absurd hi (by decide)
  | n + 3 =>
    have hd : cNavState.lines.getD (n + 3) ⟨[]⟩ = ⟨[]⟩ :=
      List.getD_eq_default _ _ (by show 3 ≤ n + 3; omega)
    rw [matchesIdx, hd] at hi
    exact absurd hi (by decide)

/-- Witness for C8 at `cNavState`: from the single match both jumps wrap
to that match. -/
theorem c8_match_navigation_wraps_witness :
    (jumpToNextMatch cNavState).scrollOffset = 1
      ∧ (jumpToPrevMatch cNavState).scrollOffset = 1 := by
  have h := c8_match_navigation_wraps cNavState cPat8 1 1 rfl (by decide) (by decide)
    (by decide) (fun i hi => (cNavState_match_bounds i hi).1)
    (fun i hi => (cNavState_match_bounds i hi).2) (by decide)
  exact ⟨h.1 (by decide) (by decide), h.2.1 (by decide)⟩

end Dockit
